import Mathlib

/-!
Shallow embedding of the quote API repository layer and delete service.

Source files modelled:
  * the QuoteRepository class (query building over quotes, tags, authors,
    plus create/update/delete mutations), and
  * DeleteQuoteService.handle (global transaction around delete + tag detach).

The database is modelled as an explicit state (rows of the quotes, tags,
authors and quote-tag join tables).  An ORM query is modelled as the list of
where-clauses accumulated on the query builder; executing the query filters
the quotes table by the conjunction of the clauses.  Full-text boolean-mode
matching (MySQL MATCH ... AGAINST) is kept abstract as a parameter
`ft : String → String → Bool` taking the constructed keyword string and a
content column value.  Fallible operations return `Except Err`.
-/

/-- A row of the quotes table.  Timestamps are unix integers (the service
code compares DateTime values via toUnixInteger). -/
structure Quote where
  id : Nat
  content : String
  authorId : Nat
  createdAt : Int
  updatedAt : Int
deriving Repr, DecidableEq

/-- A row of the tags table (id, indexed name; timestamps omitted as no
modelled operation reads them). -/
structure Tag where
  id : Nat
  name : String
deriving Repr, DecidableEq

/-- A row of the authors table, referenced by the author filter via exact
name or slug match. -/
structure Author where
  id : Nat
  name : String
  slug : String
deriving Repr, DecidableEq

/-- The database state: the four tables the modelled operations touch, the
next auto-increment id for quotes, and the current time used for inserted
timestamp defaults. -/
structure DBState where
  quotes : List Quote
  tags : List Tag
  authors : List Author
  quoteTags : List (Nat × Nat)
  nextId : Nat
  now : Int
deriving Repr, DecidableEq

/-- Errors thrown by the modelled operations: E_ROW_NOT_FOUND from
firstOrFail, a generic database error, and a null dereference (TypeError)
for the unreachable null-entity path in the delete service. -/
inductive Err where
  | rowNotFound
  | dbError (msg : String)
  | nullDeref
deriving Repr, DecidableEq

/-- Direction of a LENGTH(content) comparison clause, mirroring the
repository filterLength parameter of type GE or LE. -/
inductive Direction where
  | ge
  | le
deriving Repr, DecidableEq

/-- A where-clause accumulated on the query builder.
  * `length dir n` models the raw clause LENGTH(content) >= n or <= n;
  * `hasTag names` models whereHas on the tags relation whose builder is a
    disjunction of name equalities (a singleton list for the AND mode);
  * `author a` models whereHas on the author relation with name or slug
    equal to a;
  * `whereId i` models where(id, i);
  * `matchBoolean kw` models the raw MATCH (content) AGAINST(kw IN BOOLEAN
    MODE) clause. -/
inductive WhereClause where
  | length (dir : Direction) (n : Int)
  | hasTag (names : List String)
  | author (a : String)
  | whereId (i : Nat)
  | matchBoolean (kw : String)
deriving Repr, DecidableEq

/-- Whether the quote has an associated tag (through the join table) whose
name equals the given name. -/
def quoteHasTagNamed (s : DBState) (q : Quote) (name : String) : Bool :=
  s.quoteTags.any fun p =>
    p.1 == q.id && s.tags.any fun t => t.id == p.2 && t.name == name

/-- Evaluate one where-clause on a quote row, given database state and the
abstract full-text matcher. -/
def evalClause (ft : String → String → Bool) (s : DBState) (q : Quote) :
    WhereClause → Bool
  | .length .ge n => decide (n ≤ (q.content.length : Int))
  | .length .le n => decide ((q.content.length : Int) ≤ n)
  | .hasTag names =>
      s.quoteTags.any fun p =>
        p.1 == q.id && s.tags.any fun t => t.id == p.2 && names.contains t.name
  | .author a => s.authors.any fun au => au.id == q.authorId && (au.name == a || au.slug == a)
  | .whereId i => q.id == i
  | .matchBoolean kw => ft kw q.content

/-- A quote matches a query when it satisfies every accumulated clause
(filters are AND-combined across dimensions). -/
def matchesQuery (ft : String → String → Bool) (s : DBState)
    (clauses : List WhereClause) (q : Quote) : Bool :=
  clauses.all (evalClause ft s q)

/-- Execute a query: the rows of the quotes table satisfying all clauses. -/
def runQuery (ft : String → String → Bool) (s : DBState)
    (clauses : List WhereClause) : List Quote :=
  s.quotes.filter (matchesQuery ft s clauses)

/-- Whether the string contains the character, modelling the JavaScript
includes test on a one-character needle. -/
def hasChar (s : String) (c : Char) : Bool :=
  s.data.any (· == c)

/-- Split a character list at every occurrence of the separator, keeping
empty segments, with acc holding the reversed current segment. -/
def splitOnCharAux (sep : Char) : List Char → List Char → List String
  | [], acc => [String.mk acc.reverse]
  | c :: cs, acc =>
    if c == sep then String.mk acc.reverse :: splitOnCharAux sep cs []
    else splitOnCharAux sep cs (c :: acc)

/-- JavaScript String.split with a one-character separator string: every
occurrence of the separator delimits a segment and empty segments are
kept. -/
def splitOnChar (sep : Char) (s : String) : List String :=
  splitOnCharAux sep s.data []

/-- A separator character of the free-text tokenizer regex: whitespace,
comma or semicolon. -/
def sepChar (c : Char) : Bool :=
  c.isWhitespace || c == ',' || c == ';'

/-- Split a character list on maximal runs of separator characters,
modelling a JavaScript regex split on one-or-more separator chars.  The
accumulator holds the reversed current segment; the flag records whether
the previous character was part of a separator run, so that a longer run
delimits only once. -/
def splitSepsAux : List Char → List Char → Bool → List String
  | [], acc, _ => [String.mk acc.reverse]
  | c :: cs, acc, prevSep =>
    if sepChar c then
      if prevSep then splitSepsAux cs acc true
      else String.mk acc.reverse :: splitSepsAux cs [] true
    else
      splitSepsAux cs (c :: acc) false

/-- JavaScript String.split on the regex of one-or-more whitespace, comma
or semicolon characters: a maximal separator run delimits segments, and a
leading or trailing run contributes an empty segment. -/
def splitSeps (s : String) : List String :=
  splitSepsAux s.data [] false

/-- Shape of a new quote row accepted by create and createMultiple. -/
structure NewQuoteSchema where
  content : String
  author_id : Nat
deriving Repr, DecidableEq

/-- Connection a statement is routed through: the provided transaction
client or the default database connection. -/
inductive Route where
  | transaction
  | defaultConn
deriving Repr, DecidableEq

/-- An executed write statement; multiInsert is the single batch insert
issued by createMultiple. -/
inductive Stmt where
  | multiInsert (table : String) (rows : List NewQuoteSchema) (route : Route)
deriving Repr, DecidableEq

/-- Rows created for a batch insert: consecutive auto-increment ids from
the given one, contents and author ids from the input, timestamps from the
column defaults at the current time. -/
def newRowsFrom (nextId : Nat) (now : Int) : List NewQuoteSchema → List Quote
  | [] => []
  | nq :: rest =>
      { id := nextId, content := nq.content, authorId := nq.author_id,
        createdAt := now, updatedAt := now } :: newRowsFrom (nextId + 1) now rest

/-- The sortable columns the in-memory comparator of getRandomQuotes reads:
number columns, the content string column, and the DateTime timestamp
columns. -/
inductive SortField where
  | id
  | content
  | authorId
  | createdAt
  | updatedAt
deriving Repr, DecidableEq

/-- Sort direction enum (OrderEnum in the source). -/
inductive OrderEnum where
  | asc
  | desc
deriving Repr, DecidableEq

/-- Sign-valued comparison of two strings, modelling localeCompare under a
lexicographic collation. -/
def stringCompare (a b : String) : Int :=
  if a < b then -1 else if b < a then 1 else 0

/-- The per-field comparison of the getRandomQuotes sort callback: DateTime
values compare by unix integer difference, strings by localeCompare, and
numbers by subtraction. -/
def fieldCompare (f : SortField) (a b : Quote) : Int :=
  match f with
  | .id => (a.id : Int) - (b.id : Int)
  | .authorId => (a.authorId : Int) - (b.authorId : Int)
  | .createdAt => a.createdAt - b.createdAt
  | .updatedAt => a.updatedAt - b.updatedAt
  | .content => stringCompare a.content b.content

/-- The full comparator of the getRandomQuotes sort callback: ascending
order returns the field comparison, descending order negates it. -/
def quoteComparator (f : SortField) (o : OrderEnum) (a b : Quote) : Int :=
  match o with
  | .asc => fieldCompare f a b
  | .desc => -(fieldCompare f a b)

/-- The filter, sort and limit inputs of getRandomQuotes. -/
structure GetRandomQuotesRequest where
  minLength : Option Int
  maxLength : Option Int
  author : Option String
  tags : Option String
  query : Option String
  sortBy : SortField
  order : OrderEnum
  limit : Nat
deriving Repr, DecidableEq

namespace QuoteRepository

/-- Filter by content length: when the bound is defined, add the raw clause
LENGTH(content) compared against it in the given direction; when the bound
is undefined or null, leave the query unchanged. -/
def filterLength (qb : List WhereClause) (length : Option Int)
    (dir : Direction) : List WhereClause :=
  match length with
  | none => qb
  | some n => qb ++ [WhereClause.length dir n]

/-- Filter by author: when defined, add a whereHas clause on the author
relation matching name or slug. -/
def filterAuthor (qb : List WhereClause) (author : Option String) :
    List WhereClause :=
  match author with
  | none => qb
  | some a => qb ++ [WhereClause.author a]

/-- Filter by tags: a string containing a pipe is split on pipes and yields
one whereHas clause on the tags relation whose builder ORs the name
matches; otherwise the string is split on commas and yields one whereHas
clause per name, AND-combined on the outer query. -/
def filterTags (qb : List WhereClause) (tags : Option String) :
    List WhereClause :=
  match tags with
  | none => qb
  | some tags =>
    if hasChar tags '|' then
      qb ++ [WhereClause.hasTag (splitOnChar '|' tags)]
    else
      qb ++ (splitOnChar ',' tags).map fun tag => WhereClause.hasTag [tag]

/-- Free-text search: when the query string is defined, tokenize it on runs
of whitespace, commas and semicolons, append the wildcard star to each
token, join the tokens with commas, and add a boolean-mode full-text match
clause with exactly that string; otherwise leave the query unchanged. -/
def queryContent (qb : List WhereClause) (search : Option String) :
    List WhereClause :=
  match search with
  | none => qb
  | some search =>
      qb ++ [WhereClause.matchBoolean
        (String.intercalate "," ((splitSeps search).map fun w => w ++ "*"))]

/-- Load a quote by id: builds the query where(id, id) and takes the first
row; with findOrFail (the default) a missing row raises E_ROW_NOT_FOUND,
otherwise the null row is returned as such. -/
def getById (ft : String → String → Bool) (s : DBState) (id : Nat)
    (findOrFail : Bool) : Except Err (Option Quote) :=
  let row := (runQuery ft s [WhereClause.whereId id]).head?
  if findOrFail then
    match row with
    | none => .error .rowNotFound
    | some q => .ok (some q)
  else .ok row

/-- Update a quote: load it by id through getById with its default
findOrFail (so a missing row raises E_ROW_NOT_FOUND), merge the provided
content over the existing one (keeping it when the input has none), persist
the row, and return the entity.  The null-row branch mirrors the optional
chaining and the cast of the source and returns the null entity with the
state untouched; it is unreachable under the findOrFail default. -/
def update (ft : String → String → Bool) (s : DBState) (id : Nat)
    (content : Option String) : Except Err (Option Quote × DBState) :=
  match getById ft s id true with
  | .error e => .error e
  | .ok none => .ok (none, s)
  | .ok (some q) =>
      .ok (some { q with content := content.getD q.content },
        { s with quotes := s.quotes.map fun r =>
            if r.id == q.id then { r with content := content.getD q.content }
            else r })

/-- Delete a quote: load it by id through getById with its default
findOrFail (so a missing row raises E_ROW_NOT_FOUND), delete the row, and
return the entity.  The null-row branch mirrors the optional chaining and
the cast of the source; it is unreachable under the findOrFail default. -/
def delete (ft : String → String → Bool) (s : DBState) (id : Nat) :
    Except Err (Option Quote × DBState) :=
  match getById ft s id true with
  | .error e => .error e
  | .ok none => .ok (none, s)
  | .ok (some q) =>
      .ok (some q,
        { s with quotes := s.quotes.filter fun r => !(r.id == q.id) })

/-- Insert many quotes as one batch statement, routed through the provided
transaction client when one is given and through the default connection
otherwise, then fetch back the rows whose content is among the input
contents (whereIn on content).  Returns the new state, the executed
statements, and the fetched rows. -/
def createMultiple (s : DBState) (input : List NewQuoteSchema)
    (txn : Option Unit) : DBState × List Stmt × List Quote :=
  let route := match txn with
    | some _ => Route.transaction
    | none => Route.defaultConn
  let inserted := newRowsFrom s.nextId s.now input
  let s2 := { s with quotes := s.quotes ++ inserted,
                     nextId := s.nextId + input.length }
  let fetched := s2.quotes.filter fun q =>
    (input.map fun nq => nq.content).contains q.content
  (s2, [Stmt.multiInsert "quotes" input route], fetched)

/-- Clauses built by getRandomQuotes before execution: both length bounds,
author, tags, then the free-text content search. -/
def randomQuotesClauses (input : GetRandomQuotesRequest) : List WhereClause :=
  queryContent
    (filterTags
      (filterAuthor
        (filterLength (filterLength [] input.minLength .ge)
          input.maxLength .le)
        input.author)
      input.tags)
    input.query

/-- Fetch limit randomly-ordered rows matching the filters, then sort the
fetched subset in process memory with the sort callback.  The database
random ordering is modelled by the parameter sel, an arbitrary reordering
of the matching rows; limit is applied after it, and the in-memory sort
runs on the fetched subset only. -/
def getRandomQuotes (ft : String → String → Bool)
    (sel : List Quote → List Quote) (s : DBState)
    (input : GetRandomQuotesRequest) : List Quote :=
  let fetched := (sel (runQuery ft s (randomQuotesClauses input))).take
    input.limit
  fetched.mergeSort fun a b =>
    decide (quoteComparator input.sortBy input.order a b ≤ 0)

end QuoteRepository

/-- Detach all tag associations of the quote: clears the join-table rows
carrying its id.  Always succeeds on its own; the delete service is proved
against an arbitrary fallible detach step as well. -/
def detachTags (q : Quote) (s : DBState) : Except Err DBState :=
  .ok { s with quoteTags := s.quoteTags.filter fun p => !(p.1 == q.id) }

/-- The transaction state seen by the delete service: the committed
database and, when the process-wide global transaction is open, the pending
working database. -/
structure TxState where
  committed : DBState
  pending : Option DBState
deriving Repr, DecidableEq

/-- Open the global transaction: the working state starts from the
committed one. -/
def beginGlobalTransaction (ts : TxState) : TxState :=
  { ts with pending := some ts.committed }

/-- Commit the global transaction: the working state becomes committed. -/
def commitGlobalTransaction (ts : TxState) : TxState :=
  { committed := ts.pending.getD ts.committed, pending := none }

/-- Roll back the global transaction: the working state is discarded. -/
def rollbackGlobalTransaction (ts : TxState) : TxState :=
  { ts with pending := none }

/-- The database state ambient operations run against: the pending working
state when the global transaction is open, the committed one otherwise. -/
def currentState (ts : TxState) : DBState :=
  ts.pending.getD ts.committed

/-- Write back the state an ambient operation produced. -/
def setCurrent (ts : TxState) (s : DBState) : TxState :=
  match ts.pending with
  | some _ => { ts with pending := some s }
  | none => { ts with committed := s }

namespace DeleteQuoteService

/-- The delete service handler: open the global transaction, delete the
quote through the repository, detach its tag associations, commit and
return the quote; on any exception from either step, roll back and
re-throw the error unchanged.  The repository delete runs against the
ambient transaction state; detach is a parameter so that failure of the
second step can be analyzed (the null-entity branch raises the TypeError
of calling related on null, inside the same try block). -/
def handle (ft : String → String → Bool)
    (detach : Quote → DBState → Except Err DBState) (id : Nat)
    (ts0 : TxState) : Except Err Quote × TxState :=
  let ts := beginGlobalTransaction ts0
  match QuoteRepository.delete ft (currentState ts) id with
  | .error e => (.error e, rollbackGlobalTransaction ts)
  | .ok (none, s1) =>
      (.error .nullDeref, rollbackGlobalTransaction (setCurrent ts s1))
  | .ok (some q, s1) =>
      let ts1 := setCurrent ts s1
      match detach q (currentState ts1) with
      | .error e => (.error e, rollbackGlobalTransaction ts1)
      | .ok s2 => (.ok q, commitGlobalTransaction (setCurrent ts1 s2))

end DeleteQuoteService

/-- A small concrete database state used by witnesses: two quotes, two
tags, quote 1 tagged with a and b, quote 2 tagged with b only. -/
def sampleState : DBState :=
  { quotes := [⟨1, "alpha", 1, 10, 10⟩, ⟨2, "beta quote", 1, 20, 20⟩],
    tags := [⟨1, "a"⟩, ⟨2, "b"⟩],
    authors := [⟨1, "Ada", "ada"⟩],
    quoteTags := [(1, 1), (1, 2), (2, 2)],
    nextId := 3,
    now := 100 }

/-- The first row of a filtered list is the first element satisfying the
predicate. -/
theorem head_filter_eq_find (p : α → Bool) (l : List α) :
    (l.filter p).head? = l.find? p := by
  induction l with
  | nil => rfl
  | cons a l ih =>
    by_cases h : p a
    · simp [List.filter_cons, List.find?_cons, h]
    · simp only [List.filter_cons, List.find?_cons, h]
      simp only [Bool.false_eq_true, if_false, ih]

/-- The single where(id, ...) query finds precisely the first quote row with
that id. -/
theorem runQuery_whereId_head (ft : String → String → Bool) (s : DBState)
    (id : Nat) :
    (runQuery ft s [WhereClause.whereId id]).head? =
      s.quotes.find? (fun q => q.id == id) := by
  unfold runQuery
  rw [head_filter_eq_find]
  congr 1
  funext q
  simp [matchesQuery, evalClause]

/-- Behavior of getById on a missing id, for both findOrFail modes. -/
theorem getById_missing (ft : String → String → Bool) (s : DBState)
    (id : Nat) (h : s.quotes.find? (fun q => q.id == id) = none) :
    QuoteRepository.getById ft s id true = .error .rowNotFound ∧
      QuoteRepository.getById ft s id false = .ok none := by
  unfold QuoteRepository.getById
  rw [runQuery_whereId_head, h]
  exact ⟨rfl, rfl⟩

/-- Behavior of getById on a present id, for both findOrFail modes. -/
theorem getById_found (ft : String → String → Bool) (s : DBState)
    (id : Nat) (q : Quote)
    (h : s.quotes.find? (fun r => r.id == id) = some q) (fof : Bool) :
    QuoteRepository.getById ft s id fof = .ok (some q) := by
  unfold QuoteRepository.getById
  rw [runQuery_whereId_head, h]
  cases fof <;> rfl

/-- Appending clauses to a query refines its result set by the conjunction
of the new clauses. -/
theorem runQuery_append (ft : String → String → Bool) (s : DBState)
    (qb cs : List WhereClause) :
    runQuery ft s (qb ++ cs) =
      (runQuery ft s qb).filter (matchesQuery ft s cs) := by
  unfold runQuery
  rw [List.filter_filter]
  congr 1
  funext q
  simp only [matchesQuery, List.all_append]
  exact Bool.and_comm _ _

/-- A whereHas clause on the tags relation with OR-combined name matches
holds exactly when some listed name is carried by an associated tag. -/
theorem evalClause_hasTag (ft : String → String → Bool) (s : DBState)
    (q : Quote) (names : List String) :
    evalClause ft s q (.hasTag names) = names.any (quoteHasTagNamed s q) := by
  rw [Bool.eq_iff_iff]
  simp only [evalClause, quoteHasTagNamed, List.contains_eq_any_beq,
    List.any_eq_true, Bool.and_eq_true, beq_iff_eq]
  aesop

/-- C4: with both bounds defined the length filters keep exactly the quotes
whose content length lies in the inclusive interval between them, and an
undefined or null bound adds no clause and leaves the query unchanged. -/
theorem filterLength_spec (ft : String → String → Bool) (s : DBState)
    (qb : List WhereClause) (m M : Int) (dir : Direction) :
    runQuery ft s (QuoteRepository.filterLength
        (QuoteRepository.filterLength qb (some m) .ge) (some M) .le) =
      (runQuery ft s qb).filter
        (fun q => decide (m ≤ (q.content.length : Int)) &&
          decide ((q.content.length : Int) ≤ M)) ∧
    QuoteRepository.filterLength qb none dir = qb := by
  constructor
  · show runQuery ft s ((qb ++ [WhereClause.length .ge m]) ++ [WhereClause.length .le M]) = _
    rw [List.append_assoc, runQuery_append]
    congr 1
    funext q
    simp [matchesQuery, evalClause]
  · rfl

/-- C3: a tags filter string without a pipe is comma-separated and keeps
exactly the quotes carrying every listed tag name, through one AND-combined
relation clause per name; a string with a pipe keeps exactly the quotes
carrying at least one listed tag name, through a single relation clause
with OR-combined name matches. -/
theorem filterTags_spec (ft : String → String → Bool) (s : DBState)
    (qb : List WhereClause) (t : String) :
    (hasChar t '|' = false →
      QuoteRepository.filterTags qb (some t) =
          qb ++ (splitOnChar ',' t).map (fun tag => WhereClause.hasTag [tag]) ∧
        runQuery ft s (QuoteRepository.filterTags [] (some t)) =
          s.quotes.filter fun q =>
            (splitOnChar ',' t).all (quoteHasTagNamed s q)) ∧
    (hasChar t '|' = true →
      QuoteRepository.filterTags qb (some t) =
          qb ++ [WhereClause.hasTag (splitOnChar '|' t)] ∧
        runQuery ft s (QuoteRepository.filterTags [] (some t)) =
          s.quotes.filter fun q =>
            (splitOnChar '|' t).any (quoteHasTagNamed s q)) := by
  constructor
  · intro h
    refine ⟨by simp [QuoteRepository.filterTags, h], ?_⟩
    simp only [QuoteRepository.filterTags, h, Bool.false_eq_true, if_false,
      List.nil_append]
    unfold runQuery
    congr 1
    funext q
    simp only [matchesQuery]
    rw [Bool.eq_iff_iff]
    simp only [List.all_eq_true, List.mem_map]
    constructor
    · intro hall tag htag
      have hc := hall (WhereClause.hasTag [tag]) ⟨tag, htag, rfl⟩
      rw [evalClause_hasTag] at hc
      simpa using hc
    · rintro hall c ⟨tag, htag, rfl⟩
      rw [evalClause_hasTag]
      simpa using hall tag htag
  · intro h
    refine ⟨by simp [QuoteRepository.filterTags, h], ?_⟩
    simp only [QuoteRepository.filterTags, h, if_true, List.nil_append]
    unfold runQuery
    congr 1
    funext q
    simp only [matchesQuery, List.all_cons, List.all_nil, Bool.and_true]
    exact evalClause_hasTag ft s q _

/-- Witness for C3 on a concrete two-quote, two-tag state, in both the
comma and the pipe mode. -/
theorem filterTags_spec_witness :
    (QuoteRepository.filterTags [] (some "a,b") =
        [] ++ (splitOnChar ',' "a,b").map (fun tag => WhereClause.hasTag [tag]) ∧
      runQuery (fun _ _ => false) sampleState
          (QuoteRepository.filterTags [] (some "a,b")) =
        sampleState.quotes.filter fun q =>
          (splitOnChar ',' "a,b").all (quoteHasTagNamed sampleState q)) ∧
    (QuoteRepository.filterTags [] (some "a|b") =
        [] ++ [WhereClause.hasTag (splitOnChar '|' "a|b")] ∧
      runQuery (fun _ _ => false) sampleState
          (QuoteRepository.filterTags [] (some "a|b")) =
        sampleState.quotes.filter fun q =>
          (splitOnChar '|' "a|b").any (quoteHasTagNamed sampleState q)) :=
  ⟨(filterTags_spec (fun _ _ => false) sampleState [] "a,b").1 (by decide),
    (filterTags_spec (fun _ _ => false) sampleState [] "a|b").2 (by decide)⟩

/-- C10: a tags filter string containing a pipe uses OR-mode exclusively
and is split only on pipes, so commas inside it are not delimiters; in
particular the input a,b|c yields exactly the names a,b and c. -/
theorem filterTags_pipe_precedence (ft : String → String → Bool)
    (s : DBState) (qb : List WhereClause) (t : String)
    (h : hasChar t '|' = true) :
    QuoteRepository.filterTags qb (some t) =
        qb ++ [WhereClause.hasTag (splitOnChar '|' t)] ∧
      runQuery ft s (QuoteRepository.filterTags [] (some t)) =
        s.quotes.filter (fun q =>
          (splitOnChar '|' t).any (quoteHasTagNamed s q)) ∧
      splitOnChar '|' "a,b|c" = ["a,b", "c"] := by
  refine ⟨by simp [QuoteRepository.filterTags, h], ?_, by rfl⟩
  simp only [QuoteRepository.filterTags, h, if_true, List.nil_append]
  unfold runQuery
  congr 1
  funext q
  simp only [matchesQuery, List.all_cons, List.all_nil, Bool.and_true]
  exact evalClause_hasTag ft s q _

/-- Witness for C10 at the concrete input a,b|c. -/
theorem filterTags_pipe_precedence_witness :
    QuoteRepository.filterTags [] (some "a,b|c") =
        [] ++ [WhereClause.hasTag (splitOnChar '|' "a,b|c")] ∧
      runQuery (fun _ _ => false) sampleState
          (QuoteRepository.filterTags [] (some "a,b|c")) =
        sampleState.quotes.filter (fun q =>
          (splitOnChar '|' "a,b|c").any (quoteHasTagNamed sampleState q)) ∧
      splitOnChar '|' "a,b|c" = ["a,b", "c"] :=
  filterTags_pipe_precedence (fun _ _ => false) sampleState [] "a,b|c"
    (by decide)

/-- Tokens produced by the separator split contain no separator character,
by the accumulator invariant of the splitting recursion. -/
theorem splitSepsAux_no_sep (l : List Char) :
    ∀ (acc : List Char) (prevSep : Bool), (∀ c ∈ acc, sepChar c = false) →
      ∀ w ∈ splitSepsAux l acc prevSep, ∀ c ∈ w.data, sepChar c = false := by
  induction l with
  | nil =>
    intro acc prevSep hacc w hw c hc
    simp only [splitSepsAux, List.mem_singleton] at hw
    subst hw
    exact hacc c (by simpa using hc)
  | cons a l ih =>
    intro acc prevSep hacc w hw c hc
    by_cases ha : sepChar a = true
    · rw [splitSepsAux, if_pos ha] at hw
      cases prevSep with
      | true => exact ih acc true hacc w hw c hc
      | false =>
        simp only [Bool.false_eq_true, if_false, List.mem_cons] at hw
        cases hw with
        | inl hw =>
          subst hw
          exact hacc c (by simpa using hc)
        | inr hw => exact ih [] true (by simp) w hw c hc
    · rw [splitSepsAux, if_neg ha] at hw
      refine ih (a :: acc) false ?_ w hw c hc
      intro d hd
      cases hd with
      | head => simpa using ha
      | tail _ hd => exact hacc d hd

/-- C6: the free-text content search leaves the query unchanged on an
undefined or null query string; on a defined string it adds exactly one
boolean-mode match clause against the content column whose argument is the
tokens of the string, split on runs of whitespace, commas and semicolons,
each suffixed with the wildcard star and joined by commas.  The tokens
carry no separator character, and on a concrete mixed-separator input the
tokenization is as expected. -/
theorem queryContent_spec (qb : List WhereClause) :
    QuoteRepository.queryContent qb none = qb ∧
    (∀ t : String, QuoteRepository.queryContent qb (some t) =
      qb ++ [WhereClause.matchBoolean
        (String.intercalate "," ((splitSeps t).map fun w => w ++ "*"))]) ∧
    (∀ t : String, ∀ w ∈ splitSeps t, ∀ c ∈ w.data, sepChar c = false) ∧
    splitSeps "hello  world, foo;bar" = ["hello", "world", "foo", "bar"] ∧
    String.intercalate ","
        ((splitSeps "hello  world, foo;bar").map fun w => w ++ "*") =
      "hello*,world*,foo*,bar*" := by
  refine ⟨rfl, fun t => rfl, ?_, by rfl, by rfl⟩
  intro t w hw c hc
  exact splitSepsAux_no_sep t.data [] false (by simp) w hw c hc

/-- Witness for C6: the separator-free token guarantee applied to a
concrete token of a concrete query string. -/
theorem queryContent_spec_witness : sepChar 'a' = false :=
  (queryContent_spec []).2.2.1 "a b" "a" (by decide) 'a' (by decide)

/-- C7: getById raises a hard not-found failure when the findOrFail flag is
requested (its default) and no matching quote exists, and returns an empty
(null) result without raising when findOrFail is false and no matching
quote exists. -/
theorem getById_notFound_spec (ft : String → String → Bool) (s : DBState)
    (id : Nat) (h : s.quotes.find? (fun q => q.id == id) = none) :
    QuoteRepository.getById ft s id true = .error .rowNotFound ∧
      QuoteRepository.getById ft s id false = .ok none :=
  getById_missing ft s id h

/-- Witness for C7 at a concrete empty database state. -/
theorem getById_notFound_spec_witness :
    QuoteRepository.getById (fun _ _ => false)
        ⟨[], [], [], [], 1, 0⟩ 7 true = .error .rowNotFound ∧
      QuoteRepository.getById (fun _ _ => false)
        ⟨[], [], [], [], 1, 0⟩ 7 false = .ok none :=
  getById_notFound_spec (fun _ _ => false) ⟨[], [], [], [], 1, 0⟩ 7 (by rfl)

/-- C2 counterexample: on the concrete empty database state, repository
update and repository delete of the missing id 7 raise the not-found error
instead of silently no-opping and returning the null entity: the claim
fails at this input. -/
theorem update_delete_missing_counterexample :
    QuoteRepository.update (fun _ _ => false) ⟨[], [], [], [], 1, 0⟩ 7 none =
        .error .rowNotFound ∧
      QuoteRepository.delete (fun _ _ => false) ⟨[], [], [], [], 1, 0⟩ 7 =
        .error .rowNotFound :=
  ⟨rfl, rfl⟩

/-- C2 amended: for every id with no existing quote, repository update and
repository delete raise the not-found error propagated from getById, whose
findOrFail flag defaults to true; the null-coerced silent no-op return is
unreachable. -/
theorem update_delete_missing_spec (ft : String → String → Bool)
    (s : DBState) (id : Nat) (content : Option String)
    (h : s.quotes.find? (fun q => q.id == id) = none) :
    QuoteRepository.update ft s id content = .error .rowNotFound ∧
      QuoteRepository.delete ft s id = .error .rowNotFound := by
  have hg := (getById_missing ft s id h).1
  unfold QuoteRepository.update QuoteRepository.delete
  rw [hg]
  exact ⟨rfl, rfl⟩

/-- Witness for the amended C2 on a concrete nonempty state missing id 9. -/
theorem update_delete_missing_spec_witness :
    QuoteRepository.update (fun _ _ => false) sampleState 9 (some "x") =
        .error .rowNotFound ∧
      QuoteRepository.delete (fun _ _ => false) sampleState 9 =
        .error .rowNotFound :=
  update_delete_missing_spec (fun _ _ => false) sampleState 9 (some "x")
    (by decide)

/-- C9: updating an existing quote changes at most the content column: the
returned entity keeps the id, author id and timestamps of the loaded quote,
its content is the provided one when given and the previous one otherwise,
the persisted state rewrites only rows carrying that id and only on
content, and every row with a different id is kept unchanged. -/
theorem update_frame_spec (ft : String → String → Bool) (s : DBState)
    (id : Nat) (content : Option String) (q : Quote)
    (h : s.quotes.find? (fun r => r.id == id) = some q) :
    QuoteRepository.update ft s id content =
        .ok (some { q with content := content.getD q.content },
          { s with quotes := s.quotes.map fun r =>
              if r.id == q.id then { r with content := content.getD q.content }
              else r }) ∧
      ({ q with content := content.getD q.content } : Quote) =
        Quote.mk q.id (content.getD q.content) q.authorId q.createdAt
          q.updatedAt ∧
      (content = none →
        ({ q with content := content.getD q.content } : Quote) = q) ∧
      (∀ c, content = some c →
        ({ q with content := content.getD q.content } : Quote).content = c) ∧
      (∀ r ∈ s.quotes, r.id ≠ q.id →
        r ∈ s.quotes.map fun r2 =>
          if r2.id == q.id then { r2 with content := content.getD q.content }
          else r2) := by
  refine ⟨?_, rfl, ?_, ?_, ?_⟩
  · unfold QuoteRepository.update
    rw [getById_found ft s id q h true]
  · intro hc
    subst hc
    rfl
  · intro c hc
    subst hc
    rfl
  · intro r hr hne
    refine List.mem_map.mpr ⟨r, hr, ?_⟩
    have hb : (r.id == q.id) = false := by
      simpa using hne
    rw [hb]
    simp

/-- Witness for C9: updating quote 1 of the sample state with a new
content. -/
theorem update_frame_spec_witness :
    QuoteRepository.update (fun _ _ => false) sampleState 1 (some "new") =
      .ok (some ⟨1, "new", 1, 10, 10⟩,
        { sampleState with
          quotes := [⟨1, "new", 1, 10, 10⟩, ⟨2, "beta quote", 1, 20, 20⟩] }) :=
  (update_frame_spec (fun _ _ => false) sampleState 1 (some "new")
    ⟨1, "alpha", 1, 10, 10⟩ (by decide)).1

/-- A batch insert creates one row per input element. -/
theorem newRowsFrom_length (n0 : Nat) (now : Int)
    (input : List NewQuoteSchema) :
    (newRowsFrom n0 now input).length = input.length := by
  induction input generalizing n0 with
  | nil => rfl
  | cons nq rest ih => simp [newRowsFrom, ih]

/-- The contents of the batch-inserted rows are the input contents, in
order. -/
theorem newRowsFrom_contents (n0 : Nat) (now : Int)
    (input : List NewQuoteSchema) :
    (newRowsFrom n0 now input).map (fun q => q.content) =
      input.map (fun nq => nq.content) := by
  induction input generalizing n0 with
  | nil => rfl
  | cons nq rest ih => simp [newRowsFrom, ih]

/-- Fetching back by the input contents after the batch insert returns
exactly the new rows, when no pre-existing row shares a content. -/
theorem filter_contents_new_rows (s : DBState)
    (input : List NewQuoteSchema)
    (hfresh : ∀ q ∈ s.quotes, ∀ nq ∈ input, q.content ≠ nq.content) :
    ((s.quotes ++ newRowsFrom s.nextId s.now input).filter fun q =>
        (input.map fun nq => nq.content).contains q.content) =
      newRowsFrom s.nextId s.now input := by
  rw [List.filter_append]
  have hold : (s.quotes.filter fun q =>
      (input.map fun nq => nq.content).contains q.content) = [] := by
    rw [List.filter_eq_nil_iff]
    intro q hq hcontains
    rw [List.contains_eq_any_beq, List.any_eq_true] at hcontains
    obtain ⟨x, hx, hbeq⟩ := hcontains
    obtain ⟨nq, hnq, rfl⟩ := List.mem_map.mp hx
    exact hfresh q hq nq hnq (by simpa using hbeq)
  have hnew : ((newRowsFrom s.nextId s.now input).filter fun q =>
      (input.map fun nq => nq.content).contains q.content) =
      newRowsFrom s.nextId s.now input := by
    rw [List.filter_eq_self]
    intro q hq
    rw [List.contains_eq_any_beq, List.any_eq_true]
    refine ⟨q.content, ?_, by simp⟩
    rw [← newRowsFrom_contents s.nextId s.now input]
    exact List.mem_map.mpr ⟨q, hq, rfl⟩
  rw [hold, hnew, List.nil_append]

/-- C8: createMultiple issues exactly one batch insert statement carrying
the whole input, routed through the provided transaction when one is given
and through the default connection otherwise; the new state appends one row
per input element, and the rows fetched back by the input contents are
exactly the newly inserted ones (their count is the input size and their
contents are the input contents) whenever no pre-existing quote shares a
content with the input. -/
theorem createMultiple_spec (s : DBState) (input : List NewQuoteSchema)
    (txn : Option Unit)
    (hfresh : ∀ q ∈ s.quotes, ∀ nq ∈ input, q.content ≠ nq.content) :
    QuoteRepository.createMultiple s input txn =
        ({ s with quotes := s.quotes ++ newRowsFrom s.nextId s.now input,
                  nextId := s.nextId + input.length },
          [Stmt.multiInsert "quotes" input
            (match txn with
             | some _ => Route.transaction
             | none => Route.defaultConn)],
          newRowsFrom s.nextId s.now input) ∧
      (newRowsFrom s.nextId s.now input).length = input.length ∧
      (newRowsFrom s.nextId s.now input).map (fun q => q.content) =
        input.map (fun nq => nq.content) := by
  refine ⟨?_, newRowsFrom_length s.nextId s.now input,
    newRowsFrom_contents s.nextId s.now input⟩
  have hf := filter_contents_new_rows s input hfresh
  unfold QuoteRepository.createMultiple
  simp only [hf]

/-- Witness for C8: inserting two fresh quotes into the sample state with a
transaction handle. -/
theorem createMultiple_spec_witness :
    QuoteRepository.createMultiple sampleState
        [⟨"gamma", 1⟩, ⟨"delta", 1⟩] (some ()) =
        ({ sampleState with
            quotes := sampleState.quotes ++
              newRowsFrom sampleState.nextId sampleState.now
                [⟨"gamma", 1⟩, ⟨"delta", 1⟩],
            nextId := sampleState.nextId + 2 },
          [Stmt.multiInsert "quotes" [⟨"gamma", 1⟩, ⟨"delta", 1⟩]
            Route.transaction],
          newRowsFrom sampleState.nextId sampleState.now
            [⟨"gamma", 1⟩, ⟨"delta", 1⟩]) ∧
      (newRowsFrom sampleState.nextId sampleState.now
        [⟨"gamma", 1⟩, ⟨"delta", 1⟩]).length = 2 ∧
      (newRowsFrom sampleState.nextId sampleState.now
          [⟨"gamma", 1⟩, ⟨"delta", 1⟩]).map (fun q => q.content) =
        ["gamma", "delta"] :=
  createMultiple_spec sampleState [⟨"gamma", 1⟩, ⟨"delta", 1⟩] (some ())
    (by decide)

/-- The localeCompare model has nonpositive sign exactly on ordered
pairs. -/
theorem stringCompare_le_iff (a b : String) :
    stringCompare a b ≤ 0 ↔ a ≤ b := by
  unfold stringCompare
  by_cases h1 : a < b
  · simp [h1, le_of_lt h1]
  · by_cases h2 : b < a
    · simp [h1, h2, not_le.mpr h2]
    · simp [h1, h2, le_of_not_lt h2]

/-- Swapping the arguments of the localeCompare model negates the sign. -/
theorem stringCompare_neg (a b : String) :
    stringCompare b a = -(stringCompare a b) := by
  unfold stringCompare
  by_cases h1 : a < b
  · simp [h1, lt_asymm h1]
  · by_cases h2 : b < a
    · simp [h1, h2]
    · simp [h1, h2]

/-- Swapping the compared quotes negates every field comparison. -/
theorem fieldCompare_neg (f : SortField) (a b : Quote) :
    fieldCompare f b a = -(fieldCompare f a b) := by
  cases f
  case content => simpa [fieldCompare] using stringCompare_neg a.content b.content
  all_goals simp [fieldCompare]

/-- Nonpositive field comparisons compose transitively. -/
theorem fieldCompare_le_trans (f : SortField) (a b c : Quote)
    (h1 : fieldCompare f a b ≤ 0) (h2 : fieldCompare f b c ≤ 0) :
    fieldCompare f a c ≤ 0 := by
  cases f
  case content =>
    simp only [fieldCompare] at h1 h2 ⊢
    rw [stringCompare_le_iff] at h1 h2 ⊢
    exact le_trans h1 h2
  all_goals simp only [fieldCompare] at h1 h2 ⊢; omega

/-- Nonpositive quote comparisons compose transitively, in both sort
directions. -/
theorem quoteComparator_le_trans (f : SortField) (o : OrderEnum)
    (a b c : Quote) (h1 : quoteComparator f o a b ≤ 0)
    (h2 : quoteComparator f o b c ≤ 0) : quoteComparator f o a c ≤ 0 := by
  cases o
  case asc => exact fieldCompare_le_trans f a b c h1 h2
  case desc =>
    simp only [quoteComparator] at h1 h2 ⊢
    have h1b : fieldCompare f b a ≤ 0 := by rw [fieldCompare_neg]; omega
    have h2b : fieldCompare f c b ≤ 0 := by rw [fieldCompare_neg]; omega
    have h3 := fieldCompare_le_trans f c b a h2b h1b
    rw [fieldCompare_neg] at h3
    omega

/-- The quote comparator is total: one direction is always nonpositive. -/
theorem quoteComparator_total (f : SortField) (o : OrderEnum) (a b : Quote) :
    quoteComparator f o a b ≤ 0 ∨ quoteComparator f o b a ≤ 0 := by
  have h := fieldCompare_neg f a b
  cases o <;> simp only [quoteComparator] <;> omega

/-- C5: getRandomQuotes returns at most limit rows; the returned list is a
permutation of the subset obtained by taking limit rows from the randomly
reordered matching rows, so randomness only selects which matching rows are
fetched; every returned row matches the filters; the returned list is
internally sorted by the requested field in the requested direction; and
the descending comparator is the negation of the ascending one. -/
theorem getRandomQuotes_spec (ft : String → String → Bool)
    (sel : List Quote → List Quote) (s : DBState)
    (input : GetRandomQuotesRequest)
    (hsel : ∀ l, (sel l).Perm l) :
    (QuoteRepository.getRandomQuotes ft sel s input).length ≤ input.limit ∧
      (QuoteRepository.getRandomQuotes ft sel s input).Perm
        ((sel (runQuery ft s
          (QuoteRepository.randomQuotesClauses input))).take input.limit) ∧
      (∀ q ∈ QuoteRepository.getRandomQuotes ft sel s input,
        q ∈ runQuery ft s (QuoteRepository.randomQuotesClauses input)) ∧
      (QuoteRepository.getRandomQuotes ft sel s input).Pairwise
        (fun a b => quoteComparator input.sortBy input.order a b ≤ 0) ∧
      (∀ f a b, quoteComparator f .desc a b =
        -(quoteComparator f .asc a b)) := by
  unfold QuoteRepository.getRandomQuotes
  simp only
  refine ⟨?_, ?_, ?_, ?_, fun f a b => rfl⟩
  · rw [List.length_mergeSort]
    exact List.length_take_le _ _
  · exact List.mergeSort_perm _ _
  · intro q hq
    rw [List.mem_mergeSort] at hq
    have h2 := List.take_subset input.limit
      (sel (runQuery ft s (QuoteRepository.randomQuotesClauses input))) hq
    exact (hsel _).mem_iff.mp h2
  · have htrans : ∀ (a b c : Quote),
        decide (quoteComparator input.sortBy input.order a b ≤ 0) = true →
        decide (quoteComparator input.sortBy input.order b c ≤ 0) = true →
        decide (quoteComparator input.sortBy input.order a c ≤ 0) = true := by
      intro a b c hab hbc
      rw [decide_eq_true_eq] at hab hbc ⊢
      exact quoteComparator_le_trans input.sortBy input.order a b c hab hbc
    have htotal : ∀ (a b : Quote),
        (decide (quoteComparator input.sortBy input.order a b ≤ 0) ||
          decide (quoteComparator input.sortBy input.order b a ≤ 0)) = true := by
      intro a b
      rcases quoteComparator_total input.sortBy input.order a b with h | h <;>
        simp [h]
    have hs := List.sorted_mergeSort htrans htotal
      ((sel (runQuery ft s
        (QuoteRepository.randomQuotesClauses input))).take input.limit)
    exact hs.imp (by intro a b h; simpa using h)

/-- Witness for C5: a concrete descending-by-id random-quotes request on
the sample state, with the identity reordering. -/
theorem getRandomQuotes_spec_witness :
    (QuoteRepository.getRandomQuotes (fun _ _ => true) (fun l => l)
        sampleState
        ⟨none, none, none, none, none, SortField.id, OrderEnum.desc, 5⟩).Pairwise
      (fun a b => quoteComparator SortField.id OrderEnum.desc a b ≤ 0) :=
  (getRandomQuotes_spec (fun _ _ => true) (fun l => l) sampleState
    ⟨none, none, none, none, none, SortField.id, OrderEnum.desc, 5⟩
    (fun l => List.Perm.refl l)).2.2.2.1

/-- C1: the delete service handler opens the global transaction, deletes
the quote, detaches its tag associations and commits: when the repository
delete and the detach step both succeed, the committed state is the one
the two steps produced inside the transaction, and with the concrete
detach the committed state has the quote row and all of its join-table
associations removed.  When either step throws, the transaction is rolled
back, the whole transaction state is exactly the initial one (the quote
remains undeleted), and the original error is re-thrown unchanged. -/
theorem deleteQuoteService_handle_spec (ft : String → String → Bool)
    (detach : Quote → DBState → Except Err DBState) (id : Nat)
    (ts0 : TxState) (h0 : ts0.pending = none) :
    (∀ e, QuoteRepository.delete ft ts0.committed id = .error e →
      DeleteQuoteService.handle ft detach id ts0 = (.error e, ts0)) ∧
      (∀ q s1 e,
        QuoteRepository.delete ft ts0.committed id = .ok (some q, s1) →
        detach q s1 = .error e →
        DeleteQuoteService.handle ft detach id ts0 = (.error e, ts0)) ∧
      (∀ q s1 s2,
        QuoteRepository.delete ft ts0.committed id = .ok (some q, s1) →
        detach q s1 = .ok s2 →
        DeleteQuoteService.handle ft detach id ts0 = (.ok q, ⟨s2, none⟩)) ∧
      (∀ q, ts0.committed.quotes.find? (fun r => r.id == id) = some q →
        DeleteQuoteService.handle ft detachTags id ts0 =
          (.ok q, ⟨{ ts0.committed with
              quotes := ts0.committed.quotes.filter fun r => !(r.id == q.id),
              quoteTags :=
                ts0.committed.quoteTags.filter fun p => !(p.1 == q.id) },
            none⟩)) := by
  obtain ⟨c, pend⟩ := ts0
  simp only at h0
  subst h0
  have hcur : currentState (beginGlobalTransaction ⟨c, none⟩) = c := rfl
  refine ⟨?_, ?_, ?_, ?_⟩
  · intro e he
    simp only [DeleteQuoteService.handle, hcur, he]
    rfl
  · intro q s1 e hdel hdet
    have hcur1 : currentState (setCurrent (beginGlobalTransaction ⟨c, none⟩)
        s1) = s1 := rfl
    simp only [DeleteQuoteService.handle, hcur, hdel, hcur1, hdet]
    rfl
  · intro q s1 s2 hdel hdet
    simp only [DeleteQuoteService.handle, hcur, hdel]
    have hcur1 : currentState (setCurrent (beginGlobalTransaction ⟨c, none⟩)
        s1) = s1 := rfl
    simp only [hcur1, hdet]
    rfl
  · intro q hq
    have hdel : QuoteRepository.delete ft c id =
        .ok (some q, { c with
          quotes := c.quotes.filter fun r => !(r.id == q.id) }) := by
      unfold QuoteRepository.delete
      rw [getById_found ft c id q hq true]
    simp only [DeleteQuoteService.handle, hcur, hdel]
    rfl

/-- Witness for C1: deleting quote 1 of the sample state with the concrete
detach, starting from a closed (no pending transaction) state. -/
theorem deleteQuoteService_handle_spec_witness :
    DeleteQuoteService.handle (fun _ _ => false) detachTags 1
        ⟨sampleState, none⟩ =
      (.ok ⟨1, "alpha", 1, 10, 10⟩,
        ⟨{ sampleState with
            quotes := sampleState.quotes.filter fun r => !(r.id == 1),
            quoteTags := sampleState.quoteTags.filter fun p => !(p.1 == 1) },
          none⟩) :=
  (deleteQuoteService_handle_spec (fun _ _ => false) detachTags 1
    ⟨sampleState, none⟩ rfl).2.2.2 ⟨1, "alpha", 1, 10, 10⟩ (by decide)
